import Mathlib

/-!
Verification of the X-Ray trace-capture SDK and query API.

Shallow embedding of `src/xray-sdk/index.js` (array summarizer, delivery
batcher) and `api/server.js` (trace store, ingest, query engine).

Modelling conventions:
* JavaScript values appearing inside traced payloads are modelled by `JVal`
  (numbers as `ℚ`, strings, null, and objects as association lists).
* JavaScript numbers that the server obtains via `parseInt`/`parseFloat`
  are modelled as `Option Int` / `Option ℚ`, with `none` standing for `NaN`;
  every comparison against `NaN` is false, and `NaN` propagates through
  addition, exactly as in JS.
* ISO-8601 timestamp strings are modelled as rationals (epoch milliseconds);
  lexicographic comparison of equal-format ISO strings agrees with the
  numeric order, and the server's sort comparator converts them to numbers
  anyway.
* `Array.prototype.slice(start, end)` is modelled by `jsSlice`, including
  the clamping of negative indices against the length and the
  `NaN ↦ 0` coercion of `ToIntegerOrInfinity`.
-/

namespace XRay

/-- An atomic JavaScript value sitting in an object field.  The code only
ever asks `typeof v === 'number'` of a field value, so non-numeric field
values are kept atomic here. -/
inductive JAtom where
  | anum (q : ℚ)
  | astr (s : String)
  | anull
deriving DecidableEq

/-- A JavaScript value as it occurs in traced payloads. -/
inductive JVal where
  | jnum (q : ℚ)
  | jstr (s : String)
  | jnull
  | jobj (fields : List (String × JAtom))
deriving DecidableEq

/-- Per-field statistics record `{min, max, avg}` built by `_computeSummary`. -/
structure FieldStats where
  min : ℚ
  max : ℚ
  avg : ℚ
deriving DecidableEq

/-- `Math.min(...values)` for a non-empty list (`0` on `[]`, never used there). -/
def listMin : List ℚ → ℚ
  | [] => 0
  | x :: xs => xs.foldl Min.min x

/-- `Math.max(...values)` for a non-empty list (`0` on `[]`, never used there). -/
def listMax : List ℚ → ℚ
  | [] => 0
  | x :: xs => xs.foldl Max.max x

/-- `array.map(item => item[key]).filter(v => typeof v === 'number')`:
the numeric values of field `key` across the whole list.  Reading a field
of a non-object (or a missing field) gives `undefined`, which the number
filter removes. -/
def numericValues (key : String) (arr : List JVal) : List ℚ :=
  arr.filterMap fun item =>
    match item with
    | .jobj fields =>
        match fields.lookup key with
        | some (.anum q) => some q
        | _ => none
    | _ => none

/-- The statistics record built for one field:
`{min: Math.min(...values), max: Math.max(...values),
  avg: values.reduce((a,b) => a+b, 0) / values.length}`. -/
def mkFieldStats (values : List ℚ) : FieldStats :=
  ⟨listMin values, listMax values, values.foldl (· + ·) 0 / (values.length : ℚ)⟩

/-- The loop body of `_computeSummary`: for each key of the first item,
keep the key iff it has at least one numeric value across `arr`. -/
def summaryEntries (fields : List (String × JAtom)) (arr : List JVal) :
    List (String × FieldStats) :=
  fields.filterMap fun kv =>
    let values := numericValues kv.1 arr
    if values.isEmpty then none else some (kv.1, mkFieldStats values)

/-- `_computeSummary(array)` from `src/xray-sdk/index.js`.
Returns `null` (`none`) for an empty array, a non-object first element,
or when no field yields numeric values.  NOTE: the statistics range over
the whole `array` argument, whichever array the caller passes. -/
def computeSummary (arr : List JVal) : Option (List (String × FieldStats)) :=
  match arr with
  | [] => none
  | firstItem :: _ =>
    match firstItem with
    | .jobj fields =>
        let s := summaryEntries fields arr
        if s.isEmpty then none else some s
    | _ => none

/-- `ToIntegerOrInfinity` + relative-index resolution of
`Array.prototype.slice`: `NaN ↦ 0`; a negative index counts from the end,
clamped below by `0`; a non-negative index is clamped above by the length. -/
def resolveIdx (len : Nat) : Option Int → Nat
  | none => 0
  | some i => if i < 0 then ((len : Int) + i).toNat else Min.min i.toNat len

/-- `l.slice(s, e)` with JS semantics (`none` = `NaN`). -/
def jsSlice (l : List α) (s e : Option Int) : List α :=
  (l.take (resolveIdx l.length e)).drop (resolveIdx l.length s)

/-- Result of `_summarizeIfLarge`: either the raw array passed through, or
the Summary object `{_summarized: true, total, sample, sampleSize, summary}`. -/
inductive SummRes where
  | raw (arr : List JVal)
  | summarized (total : Nat) (sample : List JVal) (sampleSize : Int)
      (summary : Option (List (String × FieldStats)))
deriving DecidableEq

/-- `_summarizeIfLarge(array, limit)` from `src/xray-sdk/index.js`, on the
array case (a missing or non-array argument is passed through before this
point).  `sample = array.slice(0, limit)` and — as in the source — the
`summary` field is `_computeSummary(array)` applied to the FULL array. -/
def summarizeIfLarge (arr : List JVal) (limit : Int) : SummRes :=
  if (arr.length : Int) ≤ limit then .raw arr
  else .summarized arr.length (jsSlice arr (some 0) (some limit)) limit
    (computeSummary arr)

/-- The `summary` field of a summarization result (`none` on a raw array). -/
def statsOfSummary : SummRes → Option (List (String × FieldStats))
  | .raw _ => none
  | .summarized _ _ _ s => s

/-- The `sample` field of a summarization result (`[]` on a raw array). -/
def sampleOfSummary : SummRes → List JVal
  | .raw _ => []
  | .summarized _ s _ _ => s

/-! ### Server-side data model (`api/server.js`)

A step as stored by the server.  `candidates`/`filtered` are `none` when the
field is absent (`undefined`/`null`, which are falsy in the
`step.candidates && step.filtered` check); a present field is either a raw
array or a Summary, exactly the two shapes produced by `_summarizeIfLarge`. -/
structure StepRec where
  stepId : String
  runId : String
  name : String
  type : String
  candidates : Option SummRes := none
  filtered : Option SummRes := none
  timestamp : ℚ := 0
  duration : Option ℚ := none
deriving DecidableEq

/-- A run as stored by the server (`runs.set(...)` in the `run_start` case
creates it; `run_end` fills in the completion fields). -/
structure RunRec where
  runId : String
  pipeline : String
  input : JVal := .jnull
  metadata : JVal := .jnull
  startTime : ℚ := 0
  steps : List StepRec := []
  status : String := "running"
  output : Option JVal := none
  error : Option JVal := none
  duration : Option ℚ := none
  endTime : Option ℚ := none
deriving DecidableEq

/-- `Map.prototype.get`. -/
def mapGet (k : String) : List (String × α) → Option α
  | [] => none
  | (k₂, v) :: rest => if k₂ = k then some v else mapGet k rest

/-- `Map.prototype.set`: replace in place if the key exists (JS `Map` keeps
the original insertion position), otherwise append. -/
def mapSet (k : String) (v : α) : List (String × α) → List (String × α)
  | [] => [(k, v)]
  | (k₂, v₂) :: rest => if k₂ = k then (k, v) :: rest else (k₂, v₂) :: mapSet k v rest

/-- The three in-memory maps of `api/server.js`:
`runs`, `steps`, `runsByPipeline`. -/
structure Store where
  runs : List (String × RunRec) := []
  steps : List (String × StepRec) := []
  runsByPipeline : List (String × List String) := []
deriving DecidableEq

/-- Payload of a `run_end` event as read by the server. -/
structure RunEndData where
  runId : String
  output : Option JVal := none
  status : String := "success"
  error : Option JVal := none
  duration : Option ℚ := none
  timestamp : ℚ := 0
deriving DecidableEq

/-- One ingested event, discriminated on its `type` field.  `otherE` stands
for an unrecognized type, on which the `switch` falls through doing nothing. -/
inductive EventData where
  | runStartE (runId pipeline : String) (input metadata : JVal) (timestamp : ℚ)
  | stepE (s : StepRec)
  | runEndE (d : RunEndData)
  | otherE
deriving DecidableEq

/-- `if (!runsByPipeline.has(pipeline)) runsByPipeline.set(pipeline, []);
runsByPipeline.get(pipeline).push(runId)`. -/
def indexAppend (pipeline runId : String) (idx : List (String × List String)) :
    List (String × List String) :=
  match mapGet pipeline idx with
  | some l => mapSet pipeline (l ++ [runId]) idx
  | none => idx ++ [(pipeline, [runId])]

/-- One iteration of the `events.forEach` loop in `POST /api/ingest`. -/
def applyEvent (st : Store) : EventData → Store
  | .runStartE runId pipeline input metadata ts =>
      { runs := mapSet runId
          { runId := runId, pipeline := pipeline, input := input,
            metadata := metadata, startTime := ts, steps := [],
            status := "running" } st.runs,
        steps := st.steps,
        runsByPipeline := indexAppend pipeline runId st.runsByPipeline }
  | .stepE s =>
      let steps := mapSet s.stepId s st.steps
      match mapGet s.runId st.runs with
      | some run =>
          { st with steps := steps,
                    runs := mapSet s.runId ({ run with steps := run.steps ++ [s] }) st.runs }
      | none => { st with steps := steps }
  | .runEndE d =>
      match mapGet d.runId st.runs with
      | some run =>
          let ended := { run with status := d.status, output := d.output,
                                  error := d.error, duration := d.duration,
                                  endTime := some d.timestamp }
          { st with runs := mapSet d.runId ended st.runs }
      | none => st
  | .otherE => st

/-- The whole `events.forEach` loop. -/
def applyEvents (st : Store) (events : List EventData) : Store :=
  events.foldl applyEvent st

/-- An atomic JSON value inside an HTTP response body. -/
inductive RespVal where
  | vBool (b : Bool)
  | vNat (n : Nat)
  | vStr (s : String)
deriving DecidableEq

/-- An HTTP response: status code plus the top-level fields of the JSON
body, in the order the source writes them. -/
structure HttpResp where
  status : Nat
  body : List (String × RespVal)
deriving DecidableEq

/-- `POST /api/ingest`.  `events` is the destructured field of the request
body; `none` stands for any non-array value (`!Array.isArray(events)`). -/
def ingest (st : Store) (events : Option (List EventData)) : Store × HttpResp :=
  match events with
  | none => (st, ⟨400, [("error", .vStr "events must be an array")]⟩)
  | some evs =>
      (applyEvents st evs,
       ⟨200, [("success", .vBool true), ("processed", .vNat evs.length)]⟩)

/-! ### Query engine (`api/server.js`)

Query-string parameters: a parameter is absent, or parses to a number, or
is a malformed (non-numeric) string, which `parseInt`/`parseFloat` turn
into `NaN`. -/
inductive QParam where
  | absent
  | num (q : ℚ)
  | nan
deriving DecidableEq

/-- JS truncation toward zero, as `parseInt` performs on a numeric string. -/
def jsTrunc (q : ℚ) : Int :=
  if 0 ≤ q then ⌊q⌋ else ⌈q⌉

/-- `parseInt(p)` after a destructuring default `dflt` (applied only when
the parameter is absent); `none` is `NaN`. -/
def qParseInt (dflt : Int) : QParam → Option Int
  | .absent => some dflt
  | .num q => some (jsTrunc q)
  | .nan => none

/-- `parseFloat(p)` after a destructuring default `dflt`; `none` is `NaN`. -/
def qParseFloat (dflt : ℚ) : QParam → Option ℚ
  | .absent => some dflt
  | .num q => some q
  | .nan => none

/-- JS addition where either operand may be `NaN`. -/
def jadd : Option Int → Option Int → Option Int
  | some a, some b => some (a + b)
  | _, _ => none

/-- JS `x >= y` where `y` may be `NaN` (always false then). -/
def jgeQ (x : ℚ) : Option ℚ → Bool
  | some y => decide (y ≤ x)
  | none => false

/-- JS `x >= y` on integers where `y` may be `NaN`. -/
def jgeI (x : Int) : Option Int → Bool
  | some y => decide (y ≤ x)
  | none => false

/-- JS `x <= y` on integers where `y` may be `NaN`. -/
def jleI (x : Int) : Option Int → Bool
  | some y => decide (x ≤ y)
  | none => false

/-- `step.candidates._summarized ? step.candidates.total
     : step.candidates.length`. -/
def totalOf : SummRes → Nat
  | .raw arr => arr.length
  | .summarized total _ _ _ => total

/-- `parseFloat(threshold) / 100` with the destructuring default
`threshold = 90`; `none` is `NaN`. -/
def thresholdPercentOf (threshold : QParam) : Option ℚ :=
  (qParseFloat 90 threshold).map (fun q => q / 100)

/-- One match record of `GET /api/query/filter-elimination`. -/
structure MatchRec where
  runId : String
  pipeline : String
  stepId : String
  stepName : String
  eliminationRate : ℚ
  candidatesIn : Nat
  candidatesOut : Nat
  filteredOut : Nat
deriving DecidableEq

/-- The body of the inner `run.steps.forEach` loop of the
filter-elimination query: the decision for one step, given the already
computed `thresholdPercent`. -/
def stepElimMatch (thresholdPercent : Option ℚ) (run : RunRec) (step : StepRec) :
    Option MatchRec :=
  if step.type = "filter" then
    match step.candidates, step.filtered with
    | some c, some f =>
        let totalCandidates := totalOf c
        let totalFiltered := totalOf f
        let totalInput := totalCandidates + totalFiltered
        if 0 < totalInput then
          let eliminationRate : ℚ := (totalFiltered : ℚ) / (totalInput : ℚ)
          if jgeQ eliminationRate thresholdPercent then
            some ⟨run.runId, run.pipeline, step.stepId, step.name,
                  eliminationRate * 100, totalCandidates,
                  totalInput - totalFiltered, totalFiltered⟩
          else none
        else none
    | _, _ => none
  else none

/-- `GET /api/query/filter-elimination`.  `runsList` stands for
`Array.from(runs.values())`; the optional `pipeline` parameter restricts
the run set first; matches accumulate in run order, then step order. -/
def filterElimination (runsList : List RunRec) (threshold : QParam)
    (pipeline : Option String) : List MatchRec :=
  let allRuns : List RunRec := match pipeline with
    | some p => runsList.filter (fun r => r.pipeline = p)
    | none => runsList
  allRuns.flatMap (fun run =>
    run.steps.filterMap (stepElimMatch (thresholdPercentOf threshold) run))

/-- Stable insertion into a list kept descending by `startTime`
(the comparator `new Date(b.startTime) - new Date(a.startTime)`). -/
def insertByStart (r : RunRec) : List RunRec → List RunRec
  | [] => [r]
  | x :: xs => if r.startTime ≤ x.startTime then x :: insertByStart r xs
               else r :: x :: xs

/-- `results.sort((a, b) => new Date(b.startTime) - new Date(a.startTime))`:
stable sort, newest first. -/
def sortByStartDesc (l : List RunRec) : List RunRec :=
  l.foldl (fun acc r => insertByStart r acc) []

/-- The query parameters of `GET /api/runs`. -/
structure RunsQuery where
  pipeline : Option String := none
  status : Option String := none
  startTime : Option ℚ := none
  endTime : Option ℚ := none
  minSteps : QParam := .absent
  maxSteps : QParam := .absent
  limit : QParam := .absent
  offset : QParam := .absent

/-- The response of `GET /api/runs`.  `limit`/`offset` echo the parsed
values (`none` = `NaN`, serialized as JSON `null`). -/
structure RunsPage where
  runs : List RunRec
  total : Nat
  limit : Option Int
  offset : Option Int
deriving DecidableEq

/-- `GET /api/runs`: filter, sort newest-first, then paginate with
`results.slice(parseInt(offset), parseInt(offset) + parseInt(limit))`.
`runsList` stands for `Array.from(runs.values())`. -/
def listRuns (runsList : List RunRec) (q : RunsQuery) : RunsPage :=
  let r₁ := match q.pipeline with
    | some p => runsList.filter (fun r => r.pipeline = p)
    | none => runsList
  let r₂ := match q.status with
    | some s => r₁.filter (fun r => r.status = s)
    | none => r₁
  let r₃ := match q.startTime with
    | some t => r₂.filter (fun r => t ≤ r.startTime)
    | none => r₂
  let r₄ := match q.endTime with
    | some t => r₃.filter (fun r => r.startTime ≤ t)
    | none => r₃
  let r₅ := match q.minSteps with
    | .absent => r₄
    | p => r₄.filter (fun r => jgeI r.steps.length (qParseInt 0 p))
  let r₆ := match q.maxSteps with
    | .absent => r₅
    | p => r₅.filter (fun r => jleI r.steps.length (qParseInt 0 p))
  let sorted := sortByStartDesc r₆
  let limit := qParseInt 100 q.limit
  let offset := qParseInt 0 q.offset
  { runs := jsSlice sorted offset (jadd offset limit),
    total := sorted.length,
    limit := limit,
    offset := offset }

/-- JS truthiness of a run's `duration` (`r => r.duration`): `undefined`,
`null` and `0` are falsy. -/
def truthyDuration (r : RunRec) : Bool :=
  match r.duration with
  | some d => decide (d ≠ 0)
  | none => false

/-- JS division where a zero denominator yields `NaN`/`±Infinity`, neither
of which is a rational; modelled as `none`.  The source performs this
division unguarded. -/
def jdiv (x y : ℚ) : Option ℚ :=
  if y = 0 then none else some (x / y)

/-- The `stats` object of `GET /api/pipelines/:pipeline/stats`. -/
structure PipelineStats where
  totalRuns : Nat
  successCount : Nat
  errorCount : Nat
  avgDuration : Option ℚ
  avgStepCount : Option ℚ
deriving DecidableEq

/-- `GET /api/pipelines/:pipeline/stats`: `none` is the early
`stats: null` return for a pipeline with no runs. -/
def pipelineStatsOf (runsList : List RunRec) (pipeline : String) :
    Option PipelineStats :=
  let pipelineRuns := runsList.filter (fun r => r.pipeline = pipeline)
  if pipelineRuns.isEmpty then none
  else some
    { totalRuns := pipelineRuns.length,
      successCount := (pipelineRuns.filter (fun r => r.status = "success")).length,
      errorCount := (pipelineRuns.filter (fun r => r.status = "error")).length,
      avgDuration :=
        jdiv ((pipelineRuns.filter truthyDuration).foldl
                (fun sum r => sum + r.duration.getD 0) 0)
             (((pipelineRuns.filter truthyDuration).length : ℚ)),
      avgStepCount :=
        jdiv ((pipelineRuns.foldl (fun sum r => sum + (r.steps.length : ℚ)) 0))
             ((pipelineRuns.length : ℚ)) }

/-! ### Delivery batcher (`src/xray-sdk/index.js`)

`_flushEvents` swaps the pending buffer out, POSTs the swapped-out batch,
and on any failure (rejected fetch or non-ok response — the `throw` inside
the `try` lands in the same `catch`) reports the error to the
caller-supplied `onError` handler; the batch is never restored.  The
`try`/`catch` means no exception escapes to the caller: the model is a
total function whose failures are data. -/
structure SdkEvent where
  type : String
  data : JVal
  timestamp : ℚ
deriving DecidableEq

/-- Outcome of one delivery attempt (`fetch` + `response.ok` check). -/
inductive NetResult where
  | ok
  | fail (err : String)
deriving DecidableEq

/-- Observable outcome of one `_flushEvents()` call: the pending buffer
afterwards, every batch for which a send was attempted, and every error
passed to `onError`. -/
structure FlushResult where
  pendingEvents : List SdkEvent
  sentBatches : List (List SdkEvent)
  errorsReported : List String
deriving DecidableEq

/-- `_flushEvents` from `src/xray-sdk/index.js`, with the network modelled
as an oracle `net` giving the outcome of delivering a given batch. -/
def flushEvents (net : List SdkEvent → NetResult) (pendingEvents : List SdkEvent) :
    FlushResult :=
  if pendingEvents.isEmpty then ⟨pendingEvents, [], []⟩
  else
    let events := pendingEvents
    match net events with
    | .ok => ⟨[], [events], []⟩
    | .fail err => ⟨[], [events], [err]⟩

/-! ### Helper lemmas about the statistics fold -/

theorem foldl_min_mem (xs : List ℚ) (x : ℚ) : xs.foldl Min.min x ∈ x :: xs := by
  induction xs generalizing x with
  | nil => simp
  | cons y ys ih =>
    have h := ih (Min.min x y)
    rcases List.mem_cons.mp h with h1 | h1
    · rw [List.foldl_cons, h1]
      rcases min_choice x y with he | he <;> rw [he] <;> simp
    · exact List.mem_cons_of_mem _ (List.mem_cons_of_mem _ h1)

theorem foldl_min_le (xs : List ℚ) (x : ℚ) :
    ∀ y ∈ x :: xs, xs.foldl Min.min x ≤ y := by
  induction xs generalizing x with
  | nil =>
    intro y hy
    rw [List.mem_singleton] at hy
    simp [hy]
  | cons z zs ih =>
    intro y hy
    have hle := ih (Min.min x z)
    rw [List.foldl_cons]
    rcases List.mem_cons.mp hy with h1 | h1
    · calc zs.foldl Min.min (Min.min x z) ≤ Min.min x z := hle _ (List.mem_cons_self _ _)
        _ ≤ x := min_le_left _ _
        _ = y := h1.symm
    · rcases List.mem_cons.mp h1 with h2 | h2
      · calc zs.foldl Min.min (Min.min x z) ≤ Min.min x z := hle _ (List.mem_cons_self _ _)
          _ ≤ z := min_le_right _ _
          _ = y := h2.symm
      · exact hle _ (List.mem_cons_of_mem _ h2)

theorem foldl_max_mem (xs : List ℚ) (x : ℚ) : xs.foldl Max.max x ∈ x :: xs := by
  induction xs generalizing x with
  | nil => simp
  | cons y ys ih =>
    have h := ih (Max.max x y)
    rcases List.mem_cons.mp h with h1 | h1
    · rw [List.foldl_cons, h1]
      rcases max_choice x y with he | he <;> rw [he] <;> simp
    · exact List.mem_cons_of_mem _ (List.mem_cons_of_mem _ h1)

theorem le_foldl_max (xs : List ℚ) (x : ℚ) :
    ∀ y ∈ x :: xs, y ≤ xs.foldl Max.max x := by
  induction xs generalizing x with
  | nil =>
    intro y hy
    rw [List.mem_singleton] at hy
    simp [hy]
  | cons z zs ih =>
    intro y hy
    have hle := ih (Max.max x z)
    rw [List.foldl_cons]
    rcases List.mem_cons.mp hy with h1 | h1
    · calc y = x := h1
        _ ≤ Max.max x z := le_max_left _ _
        _ ≤ zs.foldl Max.max (Max.max x z) := hle _ (List.mem_cons_self _ _)
    · rcases List.mem_cons.mp h1 with h2 | h2
      · calc y = z := h2
          _ ≤ Max.max x z := le_max_right _ _
          _ ≤ zs.foldl Max.max (Max.max x z) := hle _ (List.mem_cons_self _ _)
      · exact hle _ (List.mem_cons_of_mem _ h2)

theorem foldl_add_eq (l : List ℚ) (a : ℚ) : l.foldl (· + ·) a = a + l.sum := by
  induction l generalizing a with
  | nil => simp
  | cons x xs ih => rw [List.foldl_cons, ih, List.sum_cons]; ring

/-- Everything the statistics record of a non-empty value list satisfies:
min and max are attained, they bound every value, and avg is the sum over
the count. -/
theorem mkFieldStats_spec (vs : List ℚ) (h : vs ≠ []) :
    (mkFieldStats vs).min ∈ vs ∧ (mkFieldStats vs).max ∈ vs ∧
    (∀ q ∈ vs, (mkFieldStats vs).min ≤ q ∧ q ≤ (mkFieldStats vs).max) ∧
    (mkFieldStats vs).avg = vs.sum / (vs.length : ℚ) := by
  obtain ⟨v, vs', rfl⟩ := List.exists_cons_of_ne_nil h
  refine ⟨foldl_min_mem vs' v, foldl_max_mem vs' v, ?_, ?_⟩
  · intro q hq
    exact ⟨foldl_min_le vs' v q hq, le_foldl_max vs' v q hq⟩
  · show (v :: vs').foldl (· + ·) 0 / _ = _
    rw [foldl_add_eq, zero_add]

/-- A field found in `summaryEntries fields arr` carries exactly the
statistics of that field's numeric values across `arr`, and the value list
is non-empty. -/
theorem summaryEntries_lookup (arr : List JVal) :
    ∀ (fields : List (String × JAtom)) (k : String) (fs : FieldStats),
      mapGet k (summaryEntries fields arr) = some fs →
      numericValues k arr ≠ [] ∧ fs = mkFieldStats (numericValues k arr) := by
  intro fields
  induction fields with
  | nil => intro k fs h; simp [summaryEntries, mapGet] at h
  | cons kv rest ih =>
    intro k fs h
    rw [summaryEntries, List.filterMap_cons] at h
    by_cases he : (numericValues kv.1 arr).isEmpty
    · rw [if_pos he] at h
      exact ih k fs h
    · rw [if_neg he] at h
      rw [mapGet] at h
      by_cases hk : kv.1 = k
      · rw [if_pos hk] at h
        subst hk
        have hfs := Option.some.inj h
        refine ⟨fun hnil => he ?_, ?_⟩
        · rw [hnil]; rfl
        · rw [← hfs]
      · rw [if_neg hk] at h
        exact ih k fs h

/-- A field found in the result of `_computeSummary(arr)` carries the
statistics of its numeric values across the whole `arr`. -/
theorem computeSummary_lookup (arr : List JVal) (stats : List (String × FieldStats))
    (h : computeSummary arr = some stats) (k : String) (fs : FieldStats)
    (hk : mapGet k stats = some fs) :
    numericValues k arr ≠ [] ∧ fs = mkFieldStats (numericValues k arr) := by
  match arr, h with
  | firstItem :: rest, h =>
    match firstItem, h with
    | .jobj fields, h =>
      rw [computeSummary] at h
      by_cases he : (summaryEntries fields (JVal.jobj fields :: rest)).isEmpty
      · rw [if_pos he] at h; exact absurd h (by simp)
      · rw [if_neg he] at h
        have hst := Option.some.inj h
        subst hst
        exact summaryEntries_lookup _ fields k fs hk

/-! ### Claim C1 — where the summary statistics come from -/

/-- A three-element list of objects whose field `x` takes the values
1, 2 and 103; summarized with limit 2, so element 103 is outside the
sample. -/
def exC1 : List JVal :=
  [JVal.jobj [("x", JAtom.anum 1)], JVal.jobj [("x", JAtom.anum 2)],
   JVal.jobj [("x", JAtom.anum 103)]]

/-- C1 counterexample: summarizing `exC1` with limit 2 keeps the sample
`[{x:1}, {x:2}]` but reports `max = 103` and `avg = 106/3` for `x`, values
determined by the third element, which lies beyond the sample; the stored
statistics differ from the statistics of the sample.  So the statistics
are not computed from the sample only. -/
theorem statistics_use_elements_beyond_sample :
    statsOfSummary (summarizeIfLarge exC1 2) = some [("x", ⟨1, 103, 106 / 3⟩)] ∧
    sampleOfSummary (summarizeIfLarge exC1 2) = exC1.take 2 ∧
    computeSummary (exC1.take 2) = some [("x", ⟨1, 2, 3 / 2⟩)] ∧
    statsOfSummary (summarizeIfLarge exC1 2) ≠
      computeSummary (sampleOfSummary (summarizeIfLarge exC1 2)) := by
  refine ⟨?_, ?_, ?_, ?_⟩
  · simp [exC1, summarizeIfLarge, computeSummary, summaryEntries, numericValues,
      mkFieldStats, listMin, listMax, statsOfSummary, jsSlice, resolveIdx]
    norm_num
  · simp [exC1, summarizeIfLarge, computeSummary, summaryEntries, numericValues,
      mkFieldStats, listMin, listMax, sampleOfSummary, jsSlice, resolveIdx]
  · simp [exC1, computeSummary, summaryEntries, numericValues, mkFieldStats,
      listMin, listMax]
    norm_num
  · simp [exC1, summarizeIfLarge, computeSummary, summaryEntries, numericValues,
      mkFieldStats, listMin, listMax, statsOfSummary, sampleOfSummary, jsSlice,
      resolveIdx]
    norm_num

/-- C1 (amended): whenever a sequence is summarized, each per-field
statistic is computed from the FULL sequence, not the sample: the stored
statistics are `_computeSummary` of the whole array, and for every reported
field, min and max are attained by and bound the numeric values of that
field across ALL elements, and avg is the sum over the count of all of
them. -/
theorem statistics_computed_over_full_array (arr : List JVal) (L : Int)
    (h : L < (arr.length : Int)) :
    statsOfSummary (summarizeIfLarge arr L) = computeSummary arr ∧
    ∀ stats, computeSummary arr = some stats →
      ∀ k fs, mapGet k stats = some fs →
        fs.min ∈ numericValues k arr ∧ fs.max ∈ numericValues k arr ∧
        (∀ q ∈ numericValues k arr, fs.min ≤ q ∧ q ≤ fs.max) ∧
        fs.avg = (numericValues k arr).sum / ((numericValues k arr).length : ℚ) := by
  constructor
  · rw [summarizeIfLarge, if_neg (not_le.mpr h)]
    rfl
  · intro stats hs k fs hk
    obtain ⟨hne, hfs⟩ := computeSummary_lookup arr stats hs k fs hk
    rw [hfs]
    exact mkFieldStats_spec _ hne

/-- C1 witness: the amended theorem applied to the concrete `exC1`. -/
theorem statistics_computed_over_full_array_witness :
    statsOfSummary (summarizeIfLarge exC1 2) = computeSummary exC1 :=
  (statistics_computed_over_full_array exC1 2 (by decide)).1

/-! ### Claim C2 — the summarization contract -/

/-- A three-element sequence used for the C2 counterexample and witness. -/
def exC2 : List JVal := [JVal.jnum 1, JVal.jnum 2, JVal.jnum 3]

/-- C2 counterexample: with limit `-1` and a three-element sequence, the
summarizer does not return the sequence unchanged, and the sample it
produces has length 2 (`slice(0, -1)` drops the last element) — not
`min(|S|, L) = -1` as the claim's formula would require. -/
theorem summarize_negative_limit_breaks_contract :
    summarizeIfLarge exC2 (-1) =
      .summarized 3 [JVal.jnum 1, JVal.jnum 2] (-1) none ∧
    ((2 : Int) ≠ Min.min 3 (-1)) := by
  decide

/-- C2 (amended): for every integer limit `L ≥ 0` the claim holds as
stated: `|S| ≤ L` returns the sequence unchanged, and otherwise the result
is a Summary whose sample is the first `L` elements (length
`min(|S|, L)`), whose total is the pre-summarization length `|S|`, and
whose sampleSize is `L`. -/
theorem summarize_contract_nonneg_limit (arr : List JVal) (L : Int)
    (h : 0 ≤ L) :
    ((arr.length : Int) ≤ L → summarizeIfLarge arr L = .raw arr) ∧
    (L < (arr.length : Int) →
      summarizeIfLarge arr L =
        .summarized arr.length (arr.take L.toNat) L (computeSummary arr) ∧
      (arr.take L.toNat).length = Min.min arr.length L.toNat) := by
  constructor
  · intro hle
    rw [summarizeIfLarge, if_pos hle]
  · intro hlt
    have hnotle : ¬ (arr.length : Int) ≤ L := not_le.mpr hlt
    constructor
    · rw [summarizeIfLarge, if_neg hnotle]
      have hres : resolveIdx arr.length (some L) = L.toNat := by
        rw [resolveIdx, if_neg (not_lt.mpr h)]
        omega
      have hres0 : resolveIdx arr.length (some 0) = 0 := by
        rw [resolveIdx]
        simp
      rw [jsSlice, hres, hres0, List.drop_zero]
    · rw [List.length_take]
      omega
  -- sample length is min of the two, as claimed for nonnegative limits

/-- C2 witness: the amended theorem applied at limit 2 to `exC2`. -/
theorem summarize_contract_nonneg_limit_witness :
    summarizeIfLarge exC2 2 =
      .summarized exC2.length (exC2.take (Int.toNat 2)) 2 (computeSummary exC2) :=
  (((summarize_contract_nonneg_limit exC2 2 (by decide)).2) (by decide)).1

/-! ### Claim C5 — limit ≤ 0 edge cases -/

/-- A three-element sequence used for the C5 counterexample and witness. -/
def exC5 : List JVal := [JVal.jnum 5, JVal.jnum 6, JVal.jnum 7]

/-- C5 counterexample: with limit `-1` the EMPTY sequence is not returned
unchanged (it becomes a Summary, since `0 <= -1` fails), and a non-empty
sequence's sample is not empty: `slice(0, -1)` keeps all but the last
element. -/
theorem negative_limit_sample_not_empty :
    summarizeIfLarge ([] : List JVal) (-1) = .summarized 0 [] (-1) none ∧
    summarizeIfLarge exC5 (-1) =
      .summarized 3 [JVal.jnum 5, JVal.jnum 6] (-1) none ∧
    [JVal.jnum 5, JVal.jnum 6] ≠ ([] : List JVal) := by
  decide

/-- C5 (amended): at limit exactly 0 the claim holds — the empty sequence
is returned unchanged and every non-empty sequence becomes a Summary with
total `|S|` and an empty sample.  For a NEGATIVE limit `L`, however, every
sequence (the empty one included) becomes a Summary, whose sample is the
sequence with its last `min(-L, |S|)` elements removed — the first
`(|S| + L)⁺` elements — which is non-empty whenever `|S| > -L`. -/
theorem summarize_limit_zero_and_negative (arr : List JVal) :
    (summarizeIfLarge ([] : List JVal) 0 = .raw []) ∧
    (arr ≠ [] →
      summarizeIfLarge arr 0 =
        .summarized arr.length [] 0 (computeSummary arr)) ∧
    (∀ L : Int, L < 0 →
      summarizeIfLarge arr L =
        .summarized arr.length (arr.take ((arr.length : Int) + L).toNat) L
          (computeSummary arr)) := by
  refine ⟨by decide, ?_, ?_⟩
  · intro hne
    have hpos : 0 < arr.length := List.length_pos.mpr hne
    rw [summarizeIfLarge, if_neg (by omega)]
    have hres : resolveIdx arr.length (some 0) = 0 := by
      rw [resolveIdx]
      simp
    rw [jsSlice, hres, List.take_zero, List.drop_zero]
  · intro L hL
    rw [summarizeIfLarge, if_neg (by omega)]
    have hres : resolveIdx arr.length (some L) = ((arr.length : Int) + L).toNat := by
      rw [resolveIdx, if_pos hL]
    have hres0 : resolveIdx arr.length (some 0) = 0 := by
      rw [resolveIdx]
      simp
    rw [jsSlice, hres, hres0, List.drop_zero]

/-- C5 witness: the amended theorem applied to `exC5` at limit `-1`. -/
theorem summarize_limit_zero_and_negative_witness :
    summarizeIfLarge exC5 (-1) =
      .summarized exC5.length (exC5.take ((exC5.length : Int) + (-1)).toNat) (-1)
        (computeSummary exC5) :=
  (summarize_limit_zero_and_negative exC5).2.2 (-1) (by decide)

/-! ### Claim C3 — summarization transparency of the elimination query -/

/-- C3: the per-step computation of the filter-elimination query depends
only on the counts `totalOf` reads — `.total` for a Summary, the length
for a raw sequence — together with the step's identity fields.  Two steps
with the same type, id and name whose `candidates`/`filtered` are present
in the same pattern and carry equal counts (in particular: raw sequences
versus Summaries whose `total` equals the raw lengths) produce the same
elimination rate and the same match result. -/
theorem elimination_rate_counts_only (tp : Option ℚ) (run : RunRec)
    (s₁ s₂ : StepRec)
    (hid : s₁.stepId = s₂.stepId) (hname : s₁.name = s₂.name)
    (hty : s₁.type = s₂.type)
    (hc : s₁.candidates.map totalOf = s₂.candidates.map totalOf)
    (hf : s₁.filtered.map totalOf = s₂.filtered.map totalOf) :
    stepElimMatch tp run s₁ = stepElimMatch tp run s₂ := by
  rcases h1 : s₁.candidates with _ | c₁ <;> rcases h2 : s₂.candidates with _ | c₂ <;>
    rcases h3 : s₁.filtered with _ | f₁ <;> rcases h4 : s₂.filtered with _ | f₂ <;>
    rw [h1, h2] at hc <;> rw [h3, h4] at hf <;> simp at hc hf <;>
    simp only [stepElimMatch, h1, h2, h3, h4, hty, hid, hname] <;>
    first
      | rfl
      | simp only [hc, hf]

/-- Concrete data for the C3 witness: a raw step and a pre-summarized
step with `total` equal to the raw lengths. -/
def c3run : RunRec := { runId := "r1", pipeline := "p" }

/-- C3 witness data: raw representation. -/
def c3raw : StepRec :=
  { stepId := "s1", runId := "r1", name := "f", type := "filter",
    candidates := some (.raw [JVal.jnull]),
    filtered := some (.raw [JVal.jnull, JVal.jnull, JVal.jnull]) }

/-- C3 witness data: summarized representation with matching totals. -/
def c3sum : StepRec :=
  { c3raw with candidates := some (.summarized 1 [] 0 none),
               filtered := some (.summarized 3 [JVal.jnull] 1 none) }

/-- C3 witness: the raw and summarized representations with equal counts
give the same match result at threshold 90. -/
theorem elimination_rate_counts_only_witness :
    c3raw.candidates.map totalOf = c3sum.candidates.map totalOf ∧
    c3raw.filtered.map totalOf = c3sum.filtered.map totalOf ∧
    stepElimMatch (some (9 / 10)) c3run c3raw =
      stepElimMatch (some (9 / 10)) c3run c3sum :=
  ⟨by decide, by decide,
   elimination_rate_counts_only (some (9 / 10)) c3run c3raw c3sum rfl rfl rfl
     (by decide) (by decide)⟩

/-! ### Claim C4 — the filter-elimination query, per the spec's words -/

/-- Modelled from the claim's words: examine exactly the steps of type
`filter` carrying both `candidates` and `filtered`; compute
`rate = totalFiltered / (totalCandidates + totalFiltered)`; exclude the
step when the denominator is 0; include it iff `rate ≥ threshold/100`,
with `threshold` defaulting to 90. -/
def specStepDecision (threshold : Option ℚ) (run : RunRec) (step : StepRec) :
    Option MatchRec :=
  match step.candidates, step.filtered with
  | some c, some f =>
      if step.type = "filter" then
        let totalCandidates := totalOf c
        let totalFiltered := totalOf f
        if totalCandidates + totalFiltered = 0 then none
        else
          let rate : ℚ :=
            (totalFiltered : ℚ) / ((totalCandidates : ℚ) + (totalFiltered : ℚ))
          if threshold.getD 90 / 100 ≤ rate then
            some ⟨run.runId, run.pipeline, step.stepId, step.name, rate * 100,
                  totalCandidates, totalCandidates, totalFiltered⟩
          else none
      else none
  | _, _ => none

/-- Per-step agreement between the source computation and the claim's
description, for an absent or numeric threshold. -/
theorem stepElimMatch_eq_spec (t : Option ℚ) (run : RunRec) (s : StepRec) :
    stepElimMatch (some (t.getD 90 / 100)) run s = specStepDecision t run s := by
  rw [stepElimMatch, specStepDecision]
  rcases s.candidates with _ | c <;> rcases s.filtered with _ | f
  · simp
  · simp
  · simp
  · by_cases hty : s.type = "filter"
    · simp only [hty, if_true]
      by_cases hz : totalOf c + totalOf f = 0
      · simp [hz]
      · have hpos : 0 < totalOf c + totalOf f := Nat.pos_of_ne_zero hz
        have hcast : ((totalOf c + totalOf f : Nat) : ℚ) =
            (totalOf c : ℚ) + (totalOf f : ℚ) := by push_cast; ring
        simp only [if_pos hpos, if_neg hz, jgeQ, hcast, Nat.add_sub_cancel,
          decide_eq_true_eq]
    · simp [hty]

/-- C4: the filter-elimination query (no pipeline restriction) equals the
claim's description: it scans exactly the steps of the runs, keeps those
of type `filter` with both `candidates` and `filtered` present, computes
`rate = totalFiltered / (totalCandidates + totalFiltered)`, excludes a
step with denominator 0, and includes a step iff `rate ≥ threshold/100`,
`threshold` defaulting to 90 when absent. -/
theorem filter_elimination_query_spec (runsList : List RunRec) (t : Option ℚ) :
    filterElimination runsList
      (match t with | none => QParam.absent | some q => QParam.num q) none =
    runsList.flatMap (fun run => run.steps.filterMap (specStepDecision t run)) := by
  have htp : thresholdPercentOf
      (match t with | none => QParam.absent | some q => QParam.num q) =
      some (t.getD 90 / 100) := by
    cases t <;> rfl
  have hfun : stepElimMatch (some (t.getD 90 / 100)) = specStepDecision t := by
    funext run s
    exact stepElimMatch_eq_spec t run s
  rw [filterElimination, htp, hfun]

/-! ### Claim C6 — malformed pagination / threshold values -/

/-- `NaN` absorbs addition on the right. -/
theorem jadd_none_right (x : Option Int) : jadd x none = none := by
  cases x <;> rfl

/-- `NaN` absorbs addition on the left. -/
theorem jadd_none_left (x : Option Int) : jadd none x = none := by
  cases x <;> rfl

/-- A `NaN` threshold matches no step: every comparison with `NaN` is
false. -/
theorem stepElimMatch_nan (run : RunRec) (s : StepRec) :
    stepElimMatch none run s = none := by
  rw [stepElimMatch]
  rcases s.candidates with _ | c <;> rcases s.filtered with _ | f <;>
    simp [jgeQ]

/-- A run stored for the C6 counterexample. -/
def c6run : RunRec := { runId := "rA", pipeline := "p", startTime := 1 }

/-- A filter step that matches any threshold ≤ 100 (all its input was
filtered out). -/
def c6elimStep : StepRec :=
  { stepId := "sE", runId := "rE", name := "f", type := "filter",
    candidates := some (.raw []), filtered := some (.raw [JVal.jnull]) }

/-- A run carrying `c6elimStep`. -/
def c6elimRun : RunRec := { runId := "rE", pipeline := "p", steps := [c6elimStep] }

/-- C6 counterexample: a malformed (`NaN`) `limit` makes `GET /api/runs`
return an empty page where the default limit returns the stored run, and
a malformed `threshold` makes the filter-elimination query return no
matches where the default threshold returns one — so malformed values are
NOT coerced to the defaults. -/
theorem malformed_params_change_results :
    (listRuns [c6run] { limit := QParam.nan }).runs = [] ∧
    (listRuns [c6run] {}).runs = [c6run] ∧
    ([] : List RunRec) ≠ [c6run] ∧
    filterElimination [c6elimRun] .nan none = [] ∧
    filterElimination [c6elimRun] .absent none =
      [⟨"rE", "p", "sE", "f", 100, 0, 0, 1⟩] ∧
    ([] : List MatchRec) ≠ [⟨"rE", "p", "sE", "f", 100, 0, 0, 1⟩] := by
  refine ⟨by decide, by decide, by decide, by decide, ?_, by decide⟩
  norm_num [filterElimination, c6elimRun, c6elimStep, stepElimMatch,
    thresholdPercentOf, qParseFloat, totalOf, jgeQ, List.flatMap_cons,
    List.filterMap_cons]

/-- C6 (amended): malformed (non-numeric) pagination or threshold values
are accepted, not rejected — the handlers still return a well-formed
result — but they are NOT coerced to the defaults: a `NaN` `limit` or
`offset` always yields an empty runs page (`slice` with a `NaN` bound
selects nothing), and a `NaN` `threshold` always yields an empty match
list (every comparison against `NaN` is false). -/
theorem malformed_params_not_defaulted :
    (∀ (runsList : List RunRec) (q : RunsQuery),
      q.limit = QParam.nan ∨ q.offset = QParam.nan →
        (listRuns runsList q).runs = []) ∧
    (∀ (runsList : List RunRec) (pf : Option String),
      filterElimination runsList .nan pf = []) := by
  constructor
  · rintro runsList q (h | h) <;> rw [listRuns] <;>
      simp only [h, qParseInt, jadd_none_right, jadd_none_left, jsSlice,
        resolveIdx, List.take_zero, List.drop_nil]
  · intro runsList pf
    have hsteps : ∀ run : RunRec,
        run.steps.filterMap (stepElimMatch (thresholdPercentOf .nan) run) = [] :=
      fun run => List.filterMap_eq_nil_iff.mpr
        (fun s _ => stepElimMatch_nan run s)
    have main : ∀ l : List RunRec,
        l.flatMap (fun run =>
          run.steps.filterMap (stepElimMatch (thresholdPercentOf .nan) run)) = [] := by
      intro l
      induction l with
      | nil => rfl
      | cons r rest ih => rw [List.flatMap_cons, hsteps, ih]; rfl
    cases pf with
    | none => exact main runsList
    | some p => exact main (runsList.filter fun r => r.pipeline = p)

/-- C6 witness: the amended theorem applied to the concrete one-run store
with a malformed limit. -/
theorem malformed_params_not_defaulted_witness :
    (listRuns [c6run] { limit := QParam.nan }).runs = [] :=
  malformed_params_not_defaulted.1 [c6run] { limit := QParam.nan } (Or.inl rfl)

/-! ### Claim C7 — the ingest response shape -/

/-- C7 counterexample: the success response of `POST /api/ingest` has no
field named `accepted`; the boolean acknowledgement field is named
`success`. -/
theorem ingest_response_has_no_accepted_field :
    mapGet "accepted" (ingest {} (some [EventData.otherE])).2.body = none ∧
    mapGet "success" (ingest {} (some [EventData.otherE])).2.body =
      some (.vBool true) := by
  decide

/-- C7 (amended): a non-array batch payload yields a structured failure
(status 400 with an `error` field); an array batch yields status 200 with
field `success` (not `accepted`) equal to `true` and field `processed`
equal to the number of events in the batch. -/
theorem ingest_response_fields (st : Store) (evs : List EventData) :
    ((ingest st (some evs)).2.status = 200 ∧
     mapGet "success" (ingest st (some evs)).2.body = some (.vBool true) ∧
     mapGet "processed" (ingest st (some evs)).2.body =
       some (.vNat evs.length)) ∧
    ((ingest st none).2.status = 400 ∧
     mapGet "error" (ingest st none).2.body =
       some (.vStr "events must be an array")) := by
  refine ⟨⟨rfl, ?_, ?_⟩, rfl, ?_⟩ <;> simp [ingest, mapGet]

/-! ### Claim C8 — at-most-once delivery on flush failure -/

/-- C8: on a delivery failure, `_flushEvents` reports the error to the
caller-supplied handler exactly once, attempts the send exactly once (the
batch is dropped, never requeued or retried — the pending buffer ends
empty), and returns normally (the failure is data, not an exception); a
flush with an empty pending buffer attempts no send at all. -/
theorem flush_failure_drops_batch (net : List SdkEvent → NetResult)
    (pending : List SdkEvent) (err : String)
    (hne : pending ≠ []) (hfail : net pending = .fail err) :
    flushEvents net pending = ⟨[], [pending], [err]⟩ ∧
    flushEvents net [] = ⟨[], [], []⟩ := by
  constructor
  · rw [flushEvents, if_neg (by simp [hne])]
    show (match net pending with
      | NetResult.ok => FlushResult.mk [] [pending] []
      | NetResult.fail err => FlushResult.mk [] [pending] [err]) = _
    rw [hfail]
  · rfl

/-- Concrete event for the C8 witness. -/
def c8event : SdkEvent := ⟨"step", .jnull, 0⟩

/-- A permanently failing backend for the C8 witness. -/
def c8net : List SdkEvent → NetResult := fun _ => .fail "boom"

/-- C8 witness: one failed flush of a one-event batch reports exactly one
error, attempts exactly one send, and leaves the buffer empty. -/
theorem flush_failure_drops_batch_witness :
    flushEvents c8net [c8event] = ⟨[], [[c8event]], ["boom"]⟩ :=
  (flush_failure_drops_batch c8net [c8event] "boom" (by decide) rfl).1

/-! ### Claim C9 — duplicate `run_start` events -/

/-- `Map.set` followed by `Map.get` on the same key returns the new
value. -/
theorem mapGet_mapSet_self (k : String) (v : α) (m : List (String × α)) :
    mapGet k (mapSet k v m) = some v := by
  induction m with
  | nil => simp [mapSet, mapGet]
  | cons kv rest ih =>
    obtain ⟨k₂, v₂⟩ := kv
    by_cases h : k₂ = k
    · simp [mapSet, mapGet, h]
    · simp [mapSet, mapGet, h, ih]

/-- C9: ingesting a `run_start` whose `runId` is already stored overwrites
the Run — status back to `running`, step list empty, so previously nested
steps vanish from the Run — while the step map is untouched (the steps
remain queryable there), and the runId is appended to the pipeline index
again, so the index then holds that runId at least twice. -/
theorem duplicate_run_start_overwrites (st : Store) (rid p : String)
    (inp md : JVal) (ts : ℚ) (r₀ : RunRec) (idx : List String)
    (h₁ : mapGet rid st.runs = some r₀)
    (h₂ : mapGet p st.runsByPipeline = some idx)
    (h₃ : rid ∈ idx) :
    mapGet rid (applyEvent st (.runStartE rid p inp md ts)).runs =
      some { runId := rid, pipeline := p, input := inp, metadata := md,
             startTime := ts, steps := [], status := "running" } ∧
    (applyEvent st (.runStartE rid p inp md ts)).steps = st.steps ∧
    mapGet p (applyEvent st (.runStartE rid p inp md ts)).runsByPipeline =
      some (idx ++ [rid]) ∧
    2 ≤ (idx ++ [rid]).count rid := by
  refine ⟨mapGet_mapSet_self rid _ st.runs, rfl, ?_, ?_⟩
  · show mapGet p (indexAppend p rid st.runsByPipeline) = some (idx ++ [rid])
    rw [indexAppend, h₂]
    exact mapGet_mapSet_self p _ st.runsByPipeline
  · have hpos : 0 < idx.count rid := List.count_pos_iff.mpr h₃
    have hone : List.count rid [rid] = 1 := by simp
    rw [List.count_append]
    omega

/-- Concrete data for the C9 witness. -/
def c9step : StepRec := { stepId := "s1", runId := "r1", name := "n", type := "t" }

/-- The run already stored before the duplicate `run_start`. -/
def c9run0 : RunRec := { runId := "r1", pipeline := "p", steps := [c9step] }

/-- A store already holding run `r1` with one nested step and the
pipeline index entry. -/
def c9store : Store :=
  { runs := [("r1", c9run0)], steps := [("s1", c9step)],
    runsByPipeline := [("p", ["r1"])] }

/-- C9 witness: the theorem applied to the concrete store. -/
theorem duplicate_run_start_overwrites_witness :
    mapGet "r1" (applyEvent c9store (.runStartE "r1" "p" .jnull .jnull 5)).runs =
      some { runId := "r1", pipeline := "p", input := .jnull, metadata := .jnull,
             startTime := 5, steps := [], status := "running" } ∧
    (applyEvent c9store (.runStartE "r1" "p" .jnull .jnull 5)).steps =
      c9store.steps ∧
    mapGet "p" (applyEvent c9store
        (.runStartE "r1" "p" .jnull .jnull 5)).runsByPipeline =
      some (["r1"] ++ ["r1"]) ∧
    2 ≤ (["r1"] ++ ["r1"]).count "r1" :=
  duplicate_run_start_overwrites c9store "r1" "p" .jnull .jnull 5 c9run0 ["r1"]
    (by decide) (by decide) (by decide)

/-! ### Claim C10 — pipeline stats average duration -/

/-- Generalized accumulator form of summing a mapped list. -/
theorem foldl_add_map (l : List α) (f : α → ℚ) (a : ℚ) :
    l.foldl (fun s x => s + f x) a = a + (l.map f).sum := by
  induction l generalizing a with
  | nil => simp
  | cons x xs ih => rw [List.foldl_cons, ih, List.map_cons, List.sum_cons]; ring

/-- The truthy-duration `filterMap` is the same as mapping `getD 0` over
the truthy filter. -/
theorem filterMap_truthy_eq (l : List RunRec) :
    l.filterMap (fun r => if truthyDuration r then r.duration else none) =
      (l.filter truthyDuration).map (fun r => r.duration.getD 0) := by
  induction l with
  | nil => rfl
  | cons r rest ih =>
    rw [List.filterMap_cons, List.filter_cons]
    by_cases h : truthyDuration r
    · rcases hd : r.duration with _ | d
      · rw [truthyDuration, hd] at h
        simp at h
      · simp only [h, if_true, hd, List.map_cons, ih]
        simp [hd]
    · simp [h, ih]

/-- C10: for a pipeline with at least one run, stats are produced, and
`avgDuration` is the sum of the durations over the pipeline's runs with a
truthy `duration`, divided (unguarded, JS `NaN` on a zero denominator,
modelled as `none`) by the count of exactly those runs; a run with
duration exactly 0 is not truthy and so is excluded; and when no run has a
truthy duration the denominator is zero and the division yields
`none` (`NaN`). -/
theorem pipeline_avg_duration_truthy_only (runsList : List RunRec) (p : String)
    (h : runsList.filter (fun r => r.pipeline = p) ≠ []) :
    ∃ s, pipelineStatsOf runsList p = some s ∧
      (s.avgDuration =
        jdiv ((runsList.filter (fun r => r.pipeline = p)).filterMap
                (fun r => if truthyDuration r then r.duration else none)).sum
             ((((runsList.filter (fun r => r.pipeline = p)).filterMap
                (fun r => if truthyDuration r then r.duration else none)).length : ℚ)) ∧
       (∀ r ∈ runsList.filter (fun r => r.pipeline = p),
          r.duration = some 0 → truthyDuration r = false) ∧
       ((∀ r ∈ runsList.filter (fun r => r.pipeline = p),
          truthyDuration r = false) → s.avgDuration = none)) := by
  have hne : (runsList.filter (fun r => r.pipeline = p)).isEmpty = false := by
    simp [List.isEmpty_iff, h]
  have hstats : pipelineStatsOf runsList p = some
      { totalRuns := (runsList.filter (fun r => r.pipeline = p)).length,
        successCount := ((runsList.filter (fun r => r.pipeline = p)).filter
          (fun r => r.status = "success")).length,
        errorCount := ((runsList.filter (fun r => r.pipeline = p)).filter
          (fun r => r.status = "error")).length,
        avgDuration :=
          jdiv (((runsList.filter (fun r => r.pipeline = p)).filter
                  truthyDuration).foldl (fun sum r => sum + r.duration.getD 0) 0)
               ((((runsList.filter (fun r => r.pipeline = p)).filter
                  truthyDuration).length : ℚ)),
        avgStepCount :=
          jdiv ((runsList.filter (fun r => r.pipeline = p)).foldl
                  (fun sum r => sum + (r.steps.length : ℚ)) 0)
               (((runsList.filter (fun r => r.pipeline = p)).length : ℚ)) } := by
    rw [pipelineStatsOf, hne]
    rfl
  have hsum : (((runsList.filter (fun r => r.pipeline = p)).filter
      truthyDuration).foldl (fun sum r => sum + r.duration.getD 0) 0) =
      ((runsList.filter (fun r => r.pipeline = p)).filterMap
        (fun r => if truthyDuration r then r.duration else none)).sum := by
    rw [filterMap_truthy_eq, foldl_add_map, zero_add]
  have hlen : (((runsList.filter (fun r => r.pipeline = p)).filter
      truthyDuration).length) =
      ((runsList.filter (fun r => r.pipeline = p)).filterMap
        (fun r => if truthyDuration r then r.duration else none)).length := by
    rw [filterMap_truthy_eq, List.length_map]
  refine ⟨_, hstats, ?_, ?_, ?_⟩
  · show jdiv _ _ = jdiv _ _
    rw [hsum, hlen]
  · intro r _ hd
    rw [truthyDuration, hd]
    simp
  · intro hall
    have hfil : (runsList.filter (fun r => r.pipeline = p)).filter
        truthyDuration = [] :=
      List.filter_eq_nil_iff.mpr (by
        intro r hr
        simp [hall r hr])
    show jdiv _ _ = none
    rw [hfil]
    simp [jdiv]

/-- Concrete runs for the C10 witness: one run with duration exactly 0 and
one with no duration at all, both in pipeline `q`. -/
def c10runs : List RunRec :=
  [{ runId := "d0", pipeline := "q", duration := some 0 },
   { runId := "dn", pipeline := "q" }]

/-- C10 witness: for the concrete pipeline whose runs have duration 0 and
null, stats exist and `avgDuration` is `none` (the JS `NaN` of the
unguarded `0 / 0`). -/
theorem pipeline_avg_duration_truthy_only_witness :
    ∃ s, pipelineStatsOf c10runs "q" = some s ∧ s.avgDuration = none := by
  obtain ⟨s, hs, _, _, hz⟩ :=
    pipeline_avg_duration_truthy_only c10runs "q" (by decide)
  exact ⟨s, hs, hz (by decide)⟩

end XRay
